/-
Verification of the process_exporter-lite collector (metrics.go) against its
design specification. The Go source is shallowly embedded: file reads become
`Except String String` inputs carrying the raw file content or an I/O error,
unsigned 64-bit arithmetic is `Nat` with explicit `% 2 ^ 64`, and a Go
function that can return normally, return an error, or panic at runtime is
given the result type `GoResult`. Go string primitives (`strings.Split`,
`strings.Fields`, `strings.TrimSpace`, ...) are modelled as structurally
recursive functions over the character list of a `String`, so that every
definition evaluates by kernel reduction.
-/
import Mathlib

deriving instance DecidableEq for Except

namespace ProcExporter

/-- Result of calling a Go function: a normal return, an error return, or a
runtime panic (`crash`), which in Go brings the whole process down. -/
inductive GoResult (α : Type) where
  | ok : α → GoResult α
  | err : String → GoResult α
  | crash : GoResult α
deriving DecidableEq, Repr

/-- One entry of a directory listing, as seen by `ioutil.ReadDir`:
its name and whether it is a directory. -/
structure DirEntry where
  name : String
  isDir : Bool
deriving DecidableEq, Repr

/-! ### Go standard-library string and number helpers -/

/-- Number of newline characters in a string; a document of `n`
newline-terminated lines contains exactly `n` newlines. -/
def countNewlines (s : String) : Nat :=
  s.data.count '\n'

/-- Go `unicode.IsSpace` on the ASCII range (the only characters relevant to
the pseudo-files read here): space, tab, newline, vertical tab, form feed,
carriage return. -/
def isGoSpace (c : Char) : Bool :=
  c = ' ' || c = '\t' || c = '\n' || c = '\x0b' || c = '\x0c' || c = '\r'

/-- Split a character list at every character satisfying `p`, keeping empty
pieces; always returns at least one piece. -/
def splitPred (p : Char → Bool) : List Char → List (List Char)
  | [] => [[]]
  | c :: cs =>
      if p c then [] :: splitPred p cs
      else
        match splitPred p cs with
        | [] => [[c]]
        | t :: ts => (c :: t) :: ts

/-- Go `strings.Split(s, sep)` for a one-character separator (the only shape the
source uses: `"\x00"`, `"\n"`): split at every occurrence, keeping empty
pieces, so the result is never the empty list. -/
def goSplitOnChar (sep : Char) (s : String) : List String :=
  (splitPred (fun c => c = sep) s.data).map (fun l => ⟨l⟩)

/-- Go `strings.Fields`: split around runs of whitespace; no empty fields. -/
def goFields (s : String) : List String :=
  ((splitPred isGoSpace s.data).filter (fun l => l ≠ [])).map (fun l => ⟨l⟩)

/-- Go `strings.TrimSpace`: strip leading and trailing whitespace. -/
def goTrimSpace (s : String) : String :=
  ⟨((s.data.dropWhile isGoSpace).reverse.dropWhile isGoSpace).reverse⟩

/-- Go `strings.HasPrefix`. -/
def goStartsWith (s pre : String) : Bool :=
  pre.data.isPrefixOf s.data

/-- Numeric value of a list of decimal digit characters. -/
def digitsVal (l : List Char) : Nat :=
  l.foldl (fun a c => a * 10 + (c.toNat - 48)) 0

/-- Leading-sign convention of `strconv` parsers: an optional single `+` or
`-` before the digits. -/
def splitSign : List Char → Int × List Char
  | '-' :: rest => (-1, rest)
  | '+' :: rest => (1, rest)
  | l => (1, l)

/-- Go `strconv.ParseUint(s, 10, 64)` in the positions where the code checks
the returned error: `some` value on success, `none` on a syntax or range
error. Accepts only non-empty all-digit strings whose value fits in 64 bits
(no sign, no underscores, since the base is given explicitly). -/
def goParseUint64 (s : String) : Option Nat :=
  if s.data ≠ [] ∧ s.data.all Char.isDigit ∧ digitsVal s.data < 2 ^ 64 then
    some (digitsVal s.data)
  else none

/-- Go `strconv.ParseUint(s, 10, 64)` in the positions where the code assigns
the returned value and discards the error (`readHostProcIOCounters`): Go then yields
the parsed value on success, `MaxUint64` on a range error and `0` on a
syntax error. -/
def goParseUint64Val (s : String) : Nat :=
  if s.data ≠ [] ∧ s.data.all Char.isDigit then
    min (digitsVal s.data) (2 ^ 64 - 1)
  else 0

/-- Go `strconv.ParseInt(s, 10, 32)`: optional single `+`/`-` sign, then at
least one decimal digit, value required to fit in a signed 32-bit integer. -/
def goParseInt32 (s : String) : Option Int :=
  let sd := splitSign s.data
  if sd.2 ≠ [] ∧ sd.2.all Char.isDigit then
    let n : Int := sd.1 * digitsVal sd.2
    if -(2 ^ 31) ≤ n ∧ n < 2 ^ 31 then some n else none
  else none

/-- Decimal representation read by `strconv.ParseFloat(s, 64)` on a plain
decimal input (optional sign, integer part, optional fractional part — the
only shapes occurring in stat tick fields): the signed mantissa together
with the number of fractional digits. A string of any other shape gives
`(0, 0)`, the value the error-discarding Go call sees on a parse failure. -/
def goParseFloatRep (s : String) : Int × Nat :=
  let sd := splitSign s.data
  match splitPred (fun c => c = '.') sd.2 with
  | [i] =>
      if i ≠ [] ∧ i.all Char.isDigit then (sd.1 * digitsVal i, 0) else (0, 0)
  | [i, f] =>
      if (i ≠ [] ∨ f ≠ []) ∧ i.all Char.isDigit ∧ f.all Char.isDigit then
        (sd.1 * ((digitsVal i : Int) * 10 ^ f.length + digitsVal f), f.length)
      else (0, 0)
  | _ => (0, 0)

/-- Go `strconv.ParseFloat(s, 64)` with the error discarded, as the exact
rational value of the parsed decimal (`0` on a parse failure). -/
def goParseFloatOr0 (s : String) : ℚ :=
  ((goParseFloatRep s).1 : ℚ) / 10 ^ (goParseFloatRep s).2

/-- Go `filepath.Base` on Unix: empty path gives `"."`; otherwise drop trailing
slashes, and if nothing remains the path was all slashes, giving `"/"`;
otherwise the last slash-separated component. -/
def filepathBase (path : String) : String :=
  if path.data = [] then "."
  else
    let p := (path.data.reverse.dropWhile (fun c => c = '/')).reverse
    if p = [] then "/"
    else ⟨(splitPred (fun c => c = '/') p).getLastD p⟩

/-- The decimal digit character for `d < 10`. -/
def digitChar (d : Nat) : Char := Char.ofNat (48 + d)

/-- Fuel-driven accumulation of the decimal digits of `n` (most significant
first), as Go's integer formatting produces them. -/
def natDigitsAux : Nat → Nat → List Char → List Char
  | 0, _, acc => acc
  | fuel + 1, n, acc =>
      if n = 0 then acc
      else natDigitsAux fuel (n / 10) (digitChar (n % 10) :: acc)

/-- Go `fmt` verb `%d` for an unsigned integer. -/
def goFormatNat (n : Nat) : String :=
  if n = 0 then "0" else ⟨natDigitsAux (n + 1) n []⟩

/-- Go `fmt` verb `%d` for a signed integer. -/
def goFormatInt (i : Int) : String :=
  (if i < 0 then "-" else "") ++ goFormatNat i.natAbs

/-- Go `fmt` verb `%.2f`: the value rounded to two decimal places and printed
with exactly two digits after the point. -/
def formatFixed2 (q : ℚ) : String :=
  let m : Int := ⌊q * 100 + 1 / 2⌋
  (if m < 0 then "-" else "") ++
    goFormatNat (m.natAbs / 100) ++ "." ++
    (if m.natAbs % 100 < 10 then "0" else "") ++ goFormatNat (m.natAbs % 100)

/-! ### The program: metrics.go

Each per-process pseudo-file read (`readHostProcFile`) is modelled by an
`Except String String` input: `.ok raw` is the raw file content
`ioutil.ReadFile` would return, `.error e` an I/O failure. -/

/-- The five pseudo-files `collectProcessMetrics` reads for one process. -/
structure ProcFiles where
  cmdline : Except String String
  stat : Except String String
  status : Except String String
  ioacct : Except String String
  netdev : Except String String

/-- Source `readHostProcFile`: propagate the read error, otherwise
`strings.TrimSpace` the content. -/
def readHostProcFile (f : Except String String) : Except String String :=
  f.map goTrimSpace

/-- Source `parseCommand`: split the command line on the null byte; the `len == 0`
branch is dead code (`strings.Split` never returns an empty slice). The
command is `filepath.Base` of the first piece, the args the remaining
pieces joined with single spaces. -/
def parseCommand (cmdline : String) : String × String :=
  let parts := goSplitOnChar '\x00' cmdline
  if parts.length = 0 then ("", "")
  else
    (filepathBase (parts.headD ""), String.intercalate " " (parts.drop 1))

/-- The command/args rule as the specification words it, for comparison with
`parseCommand`: split the argument vector on the null byte; the first token
is the executable (basename only), the remaining tokens joined with single
spaces form the argument string; if the argument vector is empty, fall back
to the process's short name with an empty argument string. -/
def parseCommandSpec (cmdline shortName : String) : String × String :=
  match (goSplitOnChar '\x00' cmdline).filter (fun t => t ≠ "") with
  | [] => (shortName, "")
  | c :: rest => (filepathBase c, String.intercalate " " rest)

/-- Source `readHostProcStat`: trim the stat content, split into whitespace
fields, reject fewer than 14 fields, then read `fields[13]` (utime) and
`fields[14]` (stime) — the latter access is out of bounds when there are
exactly 14 fields, which in Go is a runtime panic (`crash`). On success the
CPU value is `(utime + stime) / 100.0`. -/
def readHostProcStat (statFile : Except String String) : GoResult ℚ :=
  match readHostProcFile statFile with
  | .error e => .err e
  | .ok content =>
      let fields := goFields content
      if fields.length < 14 then .err "invalid stat file"
      else
        match fields.get? 13, fields.get? 14 with
        | some u, some s => .ok ((goParseFloatOr0 u + goParseFloatOr0 s) / 100)
        | _, _ => .crash

/-- The `VmRSS:` scan of `readHostProcStatus`: the first line carrying the
prefix and at least two fields decides the result — a parse failure of the
second field is an error, otherwise the kilobyte count scaled to bytes
(64-bit multiplication); a prefixed line with fewer than two fields is
passed over, and if no line decides, the lookup fails. -/
def readVmRSSLines : List String → GoResult Nat
  | [] => .err "VmRSS not found in status"
  | l :: ls =>
      if goStartsWith l "VmRSS:" then
        let fields := goFields l
        if fields.length ≥ 2 then
          match goParseUint64 (fields.getD 1 "") with
          | some rss => .ok (rss * 1024 % 2 ^ 64)
          | none => .err "parse error"
        else readVmRSSLines ls
      else readVmRSSLines ls

/-- Source `readHostProcStatus`: split the trimmed status content into lines and
scan for `VmRSS:`. -/
def readHostProcStatus (statusFile : Except String String) : GoResult Nat :=
  match readHostProcFile statusFile with
  | .error e => .err e
  | .ok content => readVmRSSLines (goSplitOnChar '\n' content)

/-- One line's effect in `readHostProcIOCounters`: a `read_bytes:`/`write_bytes:`
line with at least two fields overwrites the corresponding counter with the
parsed value (error discarded); every other line leaves the pair alone. -/
def ioUpdate (acc : Nat × Nat) (l : String) : Nat × Nat :=
  if goStartsWith l "read_bytes:" then
    let fields := goFields l
    if fields.length ≥ 2 then (goParseUint64Val (fields.getD 1 ""), acc.2)
    else acc
  else if goStartsWith l "write_bytes:" then
    let fields := goFields l
    if fields.length ≥ 2 then (acc.1, goParseUint64Val (fields.getD 1 ""))
    else acc
  else acc

/-- Source `readHostProcIO`, renamed here: fold `ioUpdate` over the lines of the trimmed I/O
accounting content, starting from zeroed counters. -/
def readHostProcIOCounters (ioFile : Except String String) : GoResult (Nat × Nat) :=
  match readHostProcFile ioFile with
  | .error e => .err e
  | .ok content => .ok ((goSplitOnChar '\n' content).foldl ioUpdate (0, 0))

/-- One row's effect in `getNetworkIOTotals`: a row with fewer than 17 whitespace
fields is skipped; otherwise the second field is added to the receive total
and the tenth to the transmit total, each only if it parses as an unsigned
64-bit integer, with 64-bit wrap-around on the addition. -/
def netUpdate (acc : Nat × Nat) (l : String) : Nat × Nat :=
  let fields := goFields l
  if fields.length < 17 then acc
  else
    (match goParseUint64 (fields.getD 1 "") with
      | some rb => (acc.1 + rb) % 2 ^ 64
      | none => acc.1,
     match goParseUint64 (fields.getD 9 "") with
      | some tb => (acc.2 + tb) % 2 ^ 64
      | none => acc.2)

/-- The totals of `getNetworkIOTotals` over a line list: the loop starts at index
2, skipping the two header lines. -/
def netTotals (lines : List String) : Nat × Nat :=
  (lines.drop 2).foldl netUpdate (0, 0)

/-- Source `getNetworkIO`, renamed here: read and trim `net/dev`, then sum receive and transmit
bytes over the interface rows after the two header lines. -/
def getNetworkIOTotals (netdevFile : Except String String) : GoResult (Nat × Nat) :=
  match readHostProcFile netdevFile with
  | .error e => .err e
  | .ok content => .ok (netTotals (goSplitOnChar '\n' content))

/-! ### Rendering -/

/-- The six metric names, in the order the source prints them. -/
def metricNames : List String :=
  ["process_cpu_usage", "process_memory_usage",
   "process_network_receive_bytes", "process_network_transmit_bytes",
   "process_disk_read_bytes", "process_disk_write_bytes"]

/-- The `\x7bpid="..",command="..",args=".."\x7d` label block shared by all
six lines of a sample. -/
def labelBlock (pid : Int) (cmd args : String) : String :=
  "\x7bpid=\"" ++ goFormatInt pid ++ "\",command=\"" ++ cmd ++
    "\",args=\"" ++ args ++ "\"\x7d"

/-- One rendered metric line: name, label block, space, value, newline. -/
def renderLine (name : String) (pid : Int) (cmd args value : String) : String :=
  name ++ labelBlock pid cmd args ++ " " ++ value ++ "\n"

/-- The six `Fprintf` calls of `collectProcessMetrics`: CPU with the `%.2f`
verb, the five other values with `%d`. -/
def renderSample (pid : Int) (cmd args : String) (cpu : ℚ)
    (mem recv trans rbytes wbytes : Nat) : String :=
  renderLine "process_cpu_usage" pid cmd args (formatFixed2 cpu) ++
  renderLine "process_memory_usage" pid cmd args (goFormatNat mem) ++
  renderLine "process_network_receive_bytes" pid cmd args (goFormatNat recv) ++
  renderLine "process_network_transmit_bytes" pid cmd args (goFormatNat trans) ++
  renderLine "process_disk_read_bytes" pid cmd args (goFormatNat rbytes) ++
  renderLine "process_disk_write_bytes" pid cmd args (goFormatNat wbytes)

/-- Source `collectProcessMetrics`: run the five sub-reads in source order, failing
on the first error (and crashing if a sub-read crashes), then render the six
metric lines for the sample. -/
def collectProcessMetrics (pid : Int) (files : ProcFiles) : GoResult String :=
  match readHostProcFile files.cmdline with
  | .error e => .err e
  | .ok cmdline =>
      let ca := parseCommand cmdline
      match readHostProcStat files.stat with
      | .err e => .err e
      | .crash => .crash
      | .ok cpu =>
          match readHostProcStatus files.status with
          | .err e => .err e
          | .crash => .crash
          | .ok mem =>
              match readHostProcIOCounters files.ioacct with
              | .err e => .err e
              | .crash => .crash
              | .ok rw =>
                  match getNetworkIOTotals files.netdev with
                  | .err e => .err e
                  | .crash => .crash
                  | .ok rt =>
                      .ok (renderSample pid ca.1 ca.2 cpu mem rt.1 rt.2
                            rw.1 rw.2)

/-! ### Enumeration and the collection cycle -/

/-- Source `getHostPIDs`: propagate a listing failure; otherwise keep, in listing
order, every directory entry whose name `strconv.ParseInt(_, 10, 32)`
accepts, as its parsed identifier. -/
def getHostPIDs (listing : Except String (List DirEntry)) :
    Except String (List Int) :=
  match listing with
  | .error e => .error e
  | .ok files =>
      .ok (files.filterMap fun f =>
        if f.isDir then goParseInt32 f.name else none)

/-- The fragment one identifier contributes to the fan-in: its rendered
block on success, nothing on a per-process error. -/
def readerFragment (reader : Int → GoResult String) (p : Int) :
    Option String :=
  match reader p with
  | .ok s => some s
  | _ => none

/-- Source `collectMetrics`: a listing failure is wrapped and returned as the
cycle's error; otherwise every identifier is read (concurrently in the
source; the fan-in order is not observable to any claim made here, so the
model concatenates in enumeration order), dropping per-process errors. A
panic in any spawned reader crashes the program. -/
def collectMetrics (listing : Except String (List DirEntry))
    (reader : Int → GoResult String) : GoResult String :=
  match getHostPIDs listing with
  | .error e => .err ("error getting host PIDs: " ++ e)
  | .ok pids =>
      if ∃ p ∈ pids, reader p = .crash then .crash
      else .ok (String.join (pids.filterMap (readerFragment reader)))

/-! ### The refresh loop and the snapshot store -/

/-- The inputs one refresh cycle consumes: the directory listing and the
per-process reader for that instant. -/
structure CycleInput where
  listing : Except String (List DirEntry)
  reader : Int → GoResult String

/-- One iteration of `updateMetrics`: on a collection error the error is
only logged and the stored document is kept; on success the store is
replaced by the new document; a collection panic kills the program. -/
def refreshStep (store : String) (c : CycleInput) : GoResult String :=
  match collectMetrics c.listing c.reader with
  | .ok s => .ok s
  | .err _ => .ok store
  | .crash => .crash

/-- The refresh loop over a finite prefix of cycles, starting from the
currently stored document (empty at startup). -/
def runCycles (store : String) : List CycleInput → GoResult String
  | [] => .ok store
  | c :: cs =>
      match refreshStep store c with
      | .ok s => runCycles s cs
      | _ => .crash

/-- The documents of the successful cycles among `inputs`, in order. -/
def successesOf (inputs : List CycleInput) : List String :=
  inputs.filterMap fun c =>
    match collectMetrics c.listing c.reader with
    | .ok s => some s
    | _ => none

/-! ### The snapshot store under concurrency

`serveMetrics` reads the builder under `metricsMutex.RLock`; `updateMetrics`
publishes under `metricsMutex.Lock` with two sub-steps, `metrics.Reset()`
and then `metrics.WriteString(newMetrics)`. The store is modelled as a
transition system: `wpc` is the writer's position in the publish sequence
(0 outside the critical section, 1 after `Lock`, 2 after `Reset`, 3 after
`WriteString`), `readers` the number of goroutines currently holding the
read lock. The `sync.RWMutex` semantics is in the step preconditions: the
writer acquires only with no readers inside, a reader acquires only while
the writer is not inside. -/

/-- A state of the snapshot store. -/
structure StoreState where
  doc : String
  wpc : Nat
  readers : Nat
deriving DecidableEq, Repr

/-- One interleaving step of the store: the four writer sub-steps of a
publish of `newDoc`, and reader lock/unlock. -/
inductive StoreStep (newDoc : String) : StoreState → StoreState → Prop where
  | wLock (s : StoreState) (h : s.wpc = 0) (hr : s.readers = 0) :
      StoreStep newDoc s { s with wpc := 1 }
  | wReset (s : StoreState) (h : s.wpc = 1) :
      StoreStep newDoc s { doc := "", wpc := 2, readers := s.readers }
  | wWrite (s : StoreState) (h : s.wpc = 2) :
      StoreStep newDoc s { doc := newDoc, wpc := 3, readers := s.readers }
  | wUnlock (s : StoreState) (h : s.wpc = 3) :
      StoreStep newDoc s { s with wpc := 0 }
  | rLock (s : StoreState) (h : s.wpc = 0) :
      StoreStep newDoc s { s with readers := s.readers + 1 }
  | rUnlock (s : StoreState) (h : s.readers ≥ 1) :
      StoreStep newDoc s { s with readers := s.readers - 1 }

/-- Reachability through interleaved store steps. -/
inductive StoreReaches (newDoc : String) : StoreState → StoreState → Prop where
  | refl (s : StoreState) : StoreReaches newDoc s s
  | tail (s t u : StoreState) (h : StoreReaches newDoc s t)
      (hs : StoreStep newDoc t u) : StoreReaches newDoc s u

/-- The store's inductive invariant during a publish of `new` over a
previously visible `old`: the writer inside the critical section excludes
readers; outside the critical section (and right after acquiring) the
document is one of the two complete documents; after the `WriteString`
sub-step it is the new one. -/
def StoreInv (old new : String) (s : StoreState) : Prop :=
  (s.wpc ≠ 0 → s.readers = 0) ∧
  (s.wpc = 0 ∨ s.wpc = 1 → s.doc = old ∨ s.doc = new) ∧
  (s.wpc = 3 → s.doc = new)

/-! ## Infrastructure lemmas -/

/-- Joining a non-empty string list peels off its head string. -/
theorem stringJoin_cons (a : String) (l : List String) :
    String.join (a :: l) = a ++ String.join l := by
  have key : ∀ (l : List String) (x : String),
      l.foldl (fun r s => r ++ s) x = x ++ l.foldl (fun r s => r ++ s) "" := by
    intro l
    induction l with
    | nil => intro x; simp
    | cons b bs ih =>
        intro x
        simp only [List.foldl_cons]
        rw [ih (x ++ b), ih ("" ++ b)]
        simp [String.append_assoc]
  simp only [String.join, List.foldl_cons]
  rw [key l ("" ++ a)]
  simp

/-- A member of a string list is a contiguous factor of the join. -/
theorem stringJoin_factor (l : List String) (a : String) (h : a ∈ l) :
    ∃ pre post, String.join l = pre ++ a ++ post := by
  induction l with
  | nil => cases h
  | cons b bs ih =>
      rcases List.mem_cons.mp h with rfl | hmem
      · exact ⟨"", String.join bs, by simp [stringJoin_cons]⟩
      · obtain ⟨pre, post, hf⟩ := ih hmem
        refine ⟨b ++ pre, post, ?_⟩
        simp [stringJoin_cons, hf, String.append_assoc]

/-- Newlines in an appended string add up. -/
theorem countNewlines_append (a b : String) :
    countNewlines (a ++ b) = countNewlines a + countNewlines b := by
  simp [countNewlines, String.data_append, List.count_append]

/-- Newlines in a joined list of strings add up. -/
theorem countNewlines_join (l : List String) :
    countNewlines (String.join l) = (l.map countNewlines).sum := by
  induction l with
  | nil => rfl
  | cons a as ih => simp [stringJoin_cons, countNewlines_append, ih]

/-! ## Claims -/

/-- C3: `readHostProcStat` is not total. Its guard rejects contents with
fewer than 14 whitespace-separated fields, but the success path then reads
field index 14, so a stat content with exactly 14 fields passes the guard
and overruns the field slice — in Go, an index-out-of-range panic that
kills the whole process instead of failing only this process's sample.
Contents with at most 13 fields do get the intended in-band error. -/
theorem readHostProcStat_overrun_at_14_fields :
    readHostProcStat (.ok "1 2 3 4 5 6 7 8 9 10 11 12 13 14") = .crash ∧
    readHostProcStat (.ok "1 2 3 4 5 6 7 8 9 10 11 12 13") =
      .err "invalid stat file" := by
  constructor
  · decide
  · decide

/-- C1: a failed collection cycle leaves the published document unchanged
(the refresh loop only logs the error), and after any finite run of cycles
that did not crash, the visible document is the last successfully collected
one — or the startup document if no cycle ever succeeded. -/
theorem failed_cycle_preserves_snapshot :
    (∀ (store : String) (c : CycleInput) (e : String),
        collectMetrics c.listing c.reader = .err e →
        refreshStep store c = .ok store) ∧
    (∀ (store : String) (inputs : List CycleInput) (d : String),
        runCycles store inputs = .ok d →
        d = (successesOf inputs).getLastD store) := by
  constructor
  · intro store c e h
    simp [refreshStep, h]
  · intro store inputs
    induction inputs generalizing store with
    | nil =>
        intro d h
        simp only [runCycles, GoResult.ok.injEq] at h
        simp [successesOf, h]
    | cons c cs ih =>
        intro d h
        rcases hc : collectMetrics c.listing c.reader with s | e
        · simp only [runCycles, refreshStep, hc] at h
          have h3 := ih s d h
          have hsucc : successesOf (c :: cs) = s :: successesOf cs := by
            simp [successesOf, hc]
          rw [hsucc, List.getLastD_cons]
          exact h3
        · simp only [runCycles, refreshStep, hc] at h
          have h3 := ih store d h
          have hsucc : successesOf (c :: cs) = successesOf cs := by
            simp [successesOf, hc]
          rw [hsucc]
          exact h3
        · simp [runCycles, refreshStep, hc] at h

/-- Witness for C1 at a concrete failing cycle: enumeration fails, the
previously stored document "prev" stays visible. -/
theorem failed_cycle_preserves_snapshot_witness :
    refreshStep "prev" ⟨.error "boom", fun _ => .err "x"⟩ = .ok "prev" :=
  failed_cycle_preserves_snapshot.1 "prev" ⟨.error "boom", fun _ => .err "x"⟩
    "error getting host PIDs: boom" rfl

/-- C2: with readers that return (no runtime panic), a collection cycle
errors exactly when enumeration errors: an enumeration failure is wrapped
and returned; with a successful listing the cycle succeeds no matter how
many per-process reads fail; a successful per-process read always
contributes its block to the document, regardless of the other readers;
and when every per-process read fails the cycle still succeeds with the
empty document. -/
theorem cycle_fails_only_on_enumeration :
    (∀ (e : String) (reader : Int → GoResult String),
        collectMetrics (.error e) reader =
          .err ("error getting host PIDs: " ++ e)) ∧
    (∀ (files : List DirEntry) (reader : Int → GoResult String),
        (∀ p, reader p ≠ .crash) →
        ∃ doc, collectMetrics (.ok files) reader = .ok doc) ∧
    (∀ (files : List DirEntry) (reader : Int → GoResult String)
        (pids : List Int) (p : Int) (s doc : String),
        getHostPIDs (.ok files) = .ok pids → p ∈ pids → reader p = .ok s →
        collectMetrics (.ok files) reader = .ok doc →
        ∃ pre post, doc = pre ++ s ++ post) ∧
    (∀ (files : List DirEntry) (reader : Int → GoResult String),
        (∀ p, ∃ e, reader p = .err e) →
        collectMetrics (.ok files) reader = .ok "") := by
  refine ⟨fun e reader => rfl, ?_, ?_, ?_⟩
  · intro files reader hnc
    simp only [collectMetrics, getHostPIDs]
    rw [if_neg]
    · exact ⟨_, rfl⟩
    · rintro ⟨p, _, hp⟩
      exact hnc p hp
  · intro files reader pids p s doc hpids hp hs hdoc
    simp only [getHostPIDs, Except.ok.injEq] at hpids
    simp only [collectMetrics, getHostPIDs, hpids] at hdoc
    by_cases hcr : ∃ q ∈ pids, reader q = .crash
    · rw [if_pos hcr] at hdoc
      cases hdoc
    · rw [if_neg hcr] at hdoc
      have hmem : s ∈ pids.filterMap (readerFragment reader) :=
        List.mem_filterMap.mpr ⟨p, hp, by simp [readerFragment, hs]⟩
      obtain ⟨pre, post, hf⟩ := stringJoin_factor _ s hmem
      simp only [GoResult.ok.injEq] at hdoc
      exact ⟨pre, post, by rw [← hdoc]; exact hf⟩
  · intro files reader herr
    simp only [collectMetrics, getHostPIDs]
    rw [if_neg]
    · have hnil :
          (List.filterMap (readerFragment reader)
            (files.filterMap fun f =>
              if f.isDir then goParseInt32 f.name else none)) = [] := by
        rw [List.filterMap_eq_nil_iff]
        intro p _
        obtain ⟨e, he⟩ := herr p
        simp [readerFragment, he]
      rw [hnil]
      rfl
    · rintro ⟨p, _, hp⟩
      obtain ⟨e, he⟩ := herr p
      rw [he] at hp
      cases hp

/-- Witness for C2, the specification's own scenario: identifiers 1, 2, 7
where 1 and 7 read successfully and 2 fails — the cycle succeeds with a
document containing the block of identifier 1. -/
theorem cycle_fails_only_on_enumeration_witness :
    ∃ pre post, "A1\n" ++ "B7\n" = pre ++ "A1\n" ++ post :=
  cycle_fails_only_on_enumeration.2.2.1
    [⟨"1", true⟩, ⟨"2", true⟩, ⟨"7", true⟩]
    (fun p => if p = 1 then .ok "A1\n"
      else if p = 7 then .ok "B7\n" else .err "gone")
    [1, 2, 7] 1 "A1\n" ("A1\n" ++ "B7\n")
    (by decide) (by decide) (by decide) (by decide)

/-- C4 counterexample: on an empty command-line pseudo-file the code does
not fall back to the process's short name. `parseCommand ""` yields the
command label `"."` — `filepath.Base` of the empty string — for every
process, while the specified fallback would yield the short name (here
`"bash"`). -/
theorem empty_cmdline_no_shortname_fallback :
    parseCommand "" = (".", "") ∧
    parseCommandSpec "" "bash" = ("bash", "") ∧
    ((".", "") : String × String) ≠ ("bash", "") :=
  ⟨by decide, by decide, by decide⟩

/-- C4 amended: for every command line, the command label is the basename
of the first null-byte-separated token and the args label is the remaining
tokens joined with single spaces; on an empty command-line file the command
label is `"."` (the basename of the empty string) with empty args — there
is no fallback to the process's short name. -/
theorem parseCommand_characterization :
    (∀ (cmdline c : String) (rest : List String),
        goSplitOnChar '\x00' cmdline = c :: rest →
        parseCommand cmdline =
          (filepathBase c, String.intercalate " " rest)) ∧
    parseCommand "" = (".", "") := by
  constructor
  · intro cmdline c rest h
    simp [parseCommand, h]
  · decide

/-- Witness for C4 at a concrete two-token command line. -/
theorem parseCommand_characterization_witness :
    parseCommand "/bin/ls\x00-la" = ("ls", "-la") := by
  have h := parseCommand_characterization.1 "/bin/ls\x00-la" "/bin/ls" ["-la"]
    (by decide)
  rw [h]
  decide

/-- C5 counterexample: the enumerator does not restrict itself to
non-negative names — a directory named `"-7"` is accepted and becomes the
negative identifier `-7`, because the code parses with the signed
`strconv.ParseInt`. -/
theorem enumerator_accepts_negative_names :
    getHostPIDs (.ok [⟨"-7", true⟩]) = .ok [-7] ∧ (-7 : Int) < 0 :=
  ⟨by decide, by decide⟩

/-- C5 amended: the enumerator propagates exactly the listing's error;
on a successful listing it always succeeds, and it returns exactly the
identifiers of those entries that are directories and whose names
`strconv.ParseInt(_, 10, 32)` accepts — names parsing as signed decimal
integers that fit in 32 bits (so also negative ones), everything else
silently skipped. -/
theorem enumerator_characterization :
    (∀ e, getHostPIDs (.error e) = .error e) ∧
    (∀ files, ∃ pids, getHostPIDs (.ok files) = .ok pids) ∧
    (∀ (files : List DirEntry) (pids : List Int) (n : Int),
        getHostPIDs (.ok files) = .ok pids →
        (n ∈ pids ↔ ∃ f ∈ files, f.isDir ∧ goParseInt32 f.name = some n)) ∧
    (∀ (s : String) (n : Int), goParseInt32 s = some n →
        -(2 ^ 31) ≤ n ∧ n < 2 ^ 31) := by
  refine ⟨fun e => rfl, fun files => ⟨_, rfl⟩, ?_, ?_⟩
  · intro files pids n h
    simp only [getHostPIDs, Except.ok.injEq] at h
    rw [← h, List.mem_filterMap]
    constructor
    · rintro ⟨f, hf, hg⟩
      by_cases hd : f.isDir
      · exact ⟨f, hf, hd, by simpa [hd] using hg⟩
      · simp [hd] at hg
    · rintro ⟨f, hf, hd, hp⟩
      exact ⟨f, hf, by simp [hd, hp]⟩
  · intro s n h
    simp only [goParseInt32] at h
    split at h
    · split at h
      · rename_i hrange
        cases h
        exact hrange
      · cases h
    · cases h

/-- Witness for C5: membership in the enumerated set at a concrete
listing. -/
theorem enumerator_characterization_witness :
    (12 : Int) ∈ ([12] : List Int) ↔
      ∃ f ∈ [DirEntry.mk "12" true], f.isDir ∧ goParseInt32 f.name = some 12 :=
  enumerator_characterization.2.2.1 [⟨"12", true⟩] [12] 12 (by decide)

/-- The store invariant holds in every state reachable from an idle store
holding `old` while a single writer publishes `new`. -/
theorem storeInv_reaches (old new : String) (s : StoreState)
    (h : StoreReaches new ⟨old, 0, 0⟩ s) : StoreInv old new s := by
  induction h with
  | refl =>
      exact ⟨fun _ => rfl, fun _ => Or.inl rfl, fun hc => by simp at hc⟩
  | tail t u hr hstep ih =>
      obtain ⟨i1, i2, i3⟩ := ih
      cases hstep with
      | wLock h1 h0 =>
          exact ⟨fun _ => h0, fun _ => i2 (Or.inl h1), fun hc => by simp at hc⟩
      | wReset h1 =>
          refine ⟨fun _ => i1 (by omega), ?_, fun hc => by simp at hc⟩
          rintro (hc | hc) <;> simp at hc
      | wWrite h1 =>
          refine ⟨fun _ => i1 (by omega), ?_, fun _ => rfl⟩
          rintro (hc | hc) <;> simp at hc
      | wUnlock h1 =>
          exact ⟨fun hc => absurd rfl hc, fun _ => Or.inr (i3 h1),
            fun hc => by simp at hc⟩
      | rLock h1 =>
          refine ⟨fun hc => absurd h1 hc, fun _ => i2 (Or.inl h1), fun hc => ?_⟩
          have hc2 : t.wpc = 3 := hc
          omega
      | rUnlock h1 =>
          exact ⟨fun hc => by rw [i1 hc], i2, i3⟩

/-- C6: in every interleaving of reader lock/unlock steps with the single
writer's publish sequence, whenever some reader holds the read lock (the
only moment `serveMetrics` can copy the document out), the visible document
is exactly the old complete document or the new complete document — never
the intermediate emptied builder, never a mixture. -/
theorem snapshot_read_atomicity (old new : String) (s : StoreState)
    (h : StoreReaches new ⟨old, 0, 0⟩ s) (hr : s.readers ≥ 1) :
    s.doc = old ∨ s.doc = new := by
  obtain ⟨i1, i2, i3⟩ := storeInv_reaches old new s h
  by_cases h0 : s.wpc = 0
  · exact i2 (Or.inl h0)
  · exact absurd (i1 h0) (by omega)

/-- Witness for C6: a reader that acquired the lock before the publish
began sees the old document. -/
theorem snapshot_read_atomicity_witness :
    ("a" : String) = "a" ∨ ("a" : String) = "b" :=
  snapshot_read_atomicity "a" "b" ⟨"a", 0, 1⟩
    (StoreReaches.tail _ _ _ (StoreReaches.refl _)
      (StoreStep.rLock ⟨"a", 0, 0⟩ rfl))
    (by decide)

/-- C7: every CPU value the stat sub-read accepts is exactly the parsed
utime field (index 13) plus the parsed stime field (index 14), divided by
the hard-coded clock-ticks-per-second constant 100 — computed from the
current stat content alone, with no delta against a previous cycle. -/
theorem cpu_value_is_ticks_over_hz :
    ∀ (raw : String) (q : ℚ), readHostProcStat (.ok raw) = .ok q →
      ∃ u s, (goFields (goTrimSpace raw)).get? 13 = some u ∧
        (goFields (goTrimSpace raw)).get? 14 = some s ∧
        q = (goParseFloatOr0 u + goParseFloatOr0 s) / 100 := by
  intro raw q h
  simp only [readHostProcStat, readHostProcFile, Except.map] at h
  split at h
  · cases h
  · rcases h13 : (goFields (goTrimSpace raw)).get? 13 with _ | u
    · rw [h13] at h
      cases h
    · rcases h14 : (goFields (goTrimSpace raw)).get? 14 with _ | s
      · rw [h13, h14] at h
        cases h
      · rw [h13, h14] at h
        simp only [GoResult.ok.injEq] at h
        exact ⟨u, s, rfl, rfl, h.symm⟩

/-- Witness for C7 at a 16-field stat content with utime 3 and stime 4. -/
theorem cpu_value_is_ticks_over_hz_witness :
    ∃ u s,
      (goFields (goTrimSpace "9 (cat) R 1 2 3 4 5 6 7 8 9 10 3 4 0")).get? 13 =
        some u ∧
      (goFields (goTrimSpace "9 (cat) R 1 2 3 4 5 6 7 8 9 10 3 4 0")).get? 14 =
        some s ∧
      (goParseFloatOr0 "3" + goParseFloatOr0 "4") / 100 =
        (goParseFloatOr0 u + goParseFloatOr0 s) / 100 :=
  cpu_value_is_ticks_over_hz "9 (cat) R 1 2 3 4 5 6 7 8 9 10 3 4 0"
    ((goParseFloatOr0 "3" + goParseFloatOr0 "4") / 100) rfl

/-- A row with fewer than 17 fields leaves the network accumulator
untouched. -/
theorem netUpdate_skip (acc : Nat × Nat) (r : String)
    (h : (goFields r).length < 17) : netUpdate acc r = acc := by
  simp only [netUpdate]
  rw [if_pos h]

/-- Folding `netUpdate` over rows whose guarded reads all succeed adds the
parsed receive and transmit fields with 64-bit wrap-around. -/
theorem netFold_good (rows : List String) (a b : Nat)
    (ha : a < 2 ^ 64) (hb : b < 2 ^ 64)
    (hrows : ∀ r ∈ rows, 17 ≤ (goFields r).length ∧
      (∃ x, goParseUint64 ((goFields r).getD 1 "") = some x) ∧
      (∃ y, goParseUint64 ((goFields r).getD 9 "") = some y)) :
    rows.foldl netUpdate (a, b) =
      ((a + (rows.map fun r =>
          (goParseUint64 ((goFields r).getD 1 "")).getD 0).sum) % 2 ^ 64,
       (b + (rows.map fun r =>
          (goParseUint64 ((goFields r).getD 9 "")).getD 0).sum) % 2 ^ 64) := by
  induction rows generalizing a b with
  | nil =>
      simp only [List.foldl_nil, List.map_nil, List.sum_nil, Nat.add_zero,
        Prod.mk.injEq]
      constructor <;> omega
  | cons r rs ih =>
      obtain ⟨h17, ⟨x, hx⟩, ⟨y, hy⟩⟩ := hrows r (List.mem_cons_self r rs)
      have hstep : netUpdate (a, b) r = ((a + x) % 2 ^ 64, (b + y) % 2 ^ 64) := by
        simp only [netUpdate]
        rw [if_neg (by omega), hx, hy]
      have hrest : ∀ r2 ∈ rs, 17 ≤ (goFields r2).length ∧
          (∃ x2, goParseUint64 ((goFields r2).getD 1 "") = some x2) ∧
          (∃ y2, goParseUint64 ((goFields r2).getD 9 "") = some y2) :=
        fun r2 hr2 => hrows r2 (List.mem_cons_of_mem r hr2)
      rw [List.foldl_cons, hstep,
        ih ((a + x) % 2 ^ 64) ((b + y) % 2 ^ 64)
          (Nat.mod_lt _ (by norm_num)) (Nat.mod_lt _ (by norm_num)) hrest]
      simp only [List.map_cons, List.sum_cons, hx, hy, Option.getD_some,
        Prod.mk.injEq]
      constructor <;> omega

/-- C9: a network-device content whose trimmed form has exactly two lines
(the two headers, no interface rows) yields zero totals and no error; in
general the totals are the fold over the rows after the two headers, and
over rows that parse they are exactly the 64-bit sums of the second
(receive) and tenth (transmit) fields across all interfaces. -/
theorem network_totals_characterization :
    (∀ raw, (goSplitOnChar '\n' (goTrimSpace raw)).length = 2 →
        getNetworkIOTotals (.ok raw) = .ok (0, 0)) ∧
    (∀ raw, getNetworkIOTotals (.ok raw) =
        .ok (netTotals (goSplitOnChar '\n' (goTrimSpace raw)))) ∧
    (∀ (h1 h2 : String) (rows : List String),
        (∀ r ∈ rows, 17 ≤ (goFields r).length ∧
          (∃ x, goParseUint64 ((goFields r).getD 1 "") = some x) ∧
          (∃ y, goParseUint64 ((goFields r).getD 9 "") = some y)) →
        netTotals (h1 :: h2 :: rows) =
          ((rows.map fun r =>
              (goParseUint64 ((goFields r).getD 1 "")).getD 0).sum % 2 ^ 64,
           (rows.map fun r =>
              (goParseUint64 ((goFields r).getD 9 "")).getD 0).sum % 2 ^ 64)) := by
  refine ⟨?_, fun raw => rfl, ?_⟩
  · intro raw hlen
    have hdrop : (goSplitOnChar '\n' (goTrimSpace raw)).drop 2 = [] := by
      apply List.drop_eq_nil_of_le
      omega
    have h2 : getNetworkIOTotals (.ok raw) =
        .ok (netTotals (goSplitOnChar '\n' (goTrimSpace raw))) := rfl
    rw [h2]
    simp only [netTotals, hdrop, List.foldl_nil]
  · intro h1 h2 rows hrows
    have := netFold_good rows 0 0 (by norm_num) (by norm_num) hrows
    simpa [netTotals] using this

/-- Witness for C9: a header-only device file gives zero totals. -/
theorem network_totals_characterization_witness :
    getNetworkIOTotals
      (.ok "Inter-|   Receive\n face |bytes    packets") = .ok (0, 0) :=
  network_totals_characterization.1
    "Inter-|   Receive\n face |bytes    packets" (by decide)

/-- C10: given readable content the network sub-read never errors; a row
with fewer than 17 whitespace-separated fields is skipped entirely
(dropping it from the row list leaves the fold unchanged); and a receive or
transmit field that does not parse as an unsigned 64-bit integer
contributes nothing to its total. -/
theorem network_read_total :
    (∀ raw, ∃ rt, getNetworkIOTotals (.ok raw) = .ok rt) ∧
    (∀ (acc : Nat × Nat) (r : String), (goFields r).length < 17 →
        netUpdate acc r = acc) ∧
    (∀ (pre post : List String) (r : String) (acc : Nat × Nat),
        (goFields r).length < 17 →
        (pre ++ r :: post).foldl netUpdate acc =
          (pre ++ post).foldl netUpdate acc) ∧
    (∀ (acc : Nat × Nat) (r : String),
        goParseUint64 ((goFields r).getD 1 "") = none →
        (netUpdate acc r).1 = acc.1) ∧
    (∀ (acc : Nat × Nat) (r : String),
        goParseUint64 ((goFields r).getD 9 "") = none →
        (netUpdate acc r).2 = acc.2) := by
  refine ⟨fun raw => ⟨_, rfl⟩, netUpdate_skip, ?_, ?_, ?_⟩
  · intro pre post r acc h
    induction pre generalizing acc with
    | nil =>
        simp [netUpdate_skip acc r h]
    | cons p ps ih =>
        simp only [List.cons_append, List.foldl_cons]
        exact ih (netUpdate acc p)
  · intro acc r hnone
    simp only [netUpdate]
    by_cases h17 : (goFields r).length < 17
    · rw [if_pos h17]
    · rw [if_neg h17, hnone]
  · intro acc r hnone
    simp only [netUpdate]
    by_cases h17 : (goFields r).length < 17
    · rw [if_pos h17]
    · rw [if_neg h17, hnone]

/-- Witness for C10: a malformed row between the headers and nothing else
is dropped from the fold. -/
theorem network_read_total_witness :
    (([] : List String) ++ "eth0: short row" :: []).foldl netUpdate (5, 6) =
      (([] : List String) ++ []).foldl netUpdate (5, 6) :=
  network_read_total.2.2.1 [] [] "eth0: short row" (5, 6) (by decide)

/-- Newlines never enter the digit accumulator of integer formatting. -/
theorem newline_not_mem_natDigitsAux (fuel : Nat) :
    ∀ (n : Nat) (acc : List Char), '\n' ∉ acc →
      '\n' ∉ natDigitsAux fuel n acc := by
  induction fuel with
  | zero =>
      intro n acc h
      simpa [natDigitsAux] using h
  | succ f ih =>
      intro n acc h
      simp only [natDigitsAux]
      split
      · exact h
      · apply ih
        intro hc
        rcases List.mem_cons.mp hc with hd | ht
        · exact absurd hd (by
            have h10 : n % 10 < 10 := Nat.mod_lt _ (by norm_num)
            revert h10
            generalize n % 10 = d
            intro h10
            interval_cases d <;> decide)
        · exact h ht

/-- Formatted unsigned integers contain no newline. -/
theorem countNewlines_goFormatNat (n : Nat) :
    countNewlines (goFormatNat n) = 0 := by
  unfold goFormatNat
  split
  · decide
  · show (natDigitsAux (n + 1) n []).count '\n' = 0
    rw [List.count_eq_zero]
    exact newline_not_mem_natDigitsAux (n + 1) n [] (by simp)

/-- Formatted signed integers contain no newline. -/
theorem countNewlines_goFormatInt (i : Int) :
    countNewlines (goFormatInt i) = 0 := by
  have hm : countNewlines "-" = 0 := by decide
  have he : countNewlines "" = 0 := by decide
  unfold goFormatInt
  split <;>
    simp [countNewlines_append, countNewlines_goFormatNat, hm, he]

/-- Formatted two-decimal values contain no newline. -/
theorem countNewlines_formatFixed2 (q : ℚ) :
    countNewlines (formatFixed2 q) = 0 := by
  have hm : countNewlines "-" = 0 := by decide
  have he : countNewlines "" = 0 := by decide
  have hd : countNewlines "." = 0 := by decide
  have hz : countNewlines "0" = 0 := by decide
  unfold formatFixed2
  simp only [countNewlines_append, countNewlines_goFormatNat, hd]
  split <;> split <;> simp [hm, he, hz]

/-- The label block contributes exactly the newlines of its `command` and
`args` label values. -/
theorem countNewlines_labelBlock (pid : Int) (cmd args : String) :
    countNewlines (labelBlock pid cmd args) =
      countNewlines cmd + countNewlines args := by
  have l1 : countNewlines "\x7bpid=\"" = 0 := by decide
  have l2 : countNewlines "\",command=\"" = 0 := by decide
  have l3 : countNewlines "\",args=\"" = 0 := by decide
  have l4 : countNewlines "\"\x7d" = 0 := by decide
  unfold labelBlock
  simp only [countNewlines_append, countNewlines_goFormatInt, l1, l2, l3, l4]
  omega

/-- One rendered line contributes its own terminating newline plus the
newlines hidden in its name, labels and value. -/
theorem countNewlines_renderLine (name : String) (pid : Int)
    (cmd args value : String) :
    countNewlines (renderLine name pid cmd args value) =
      countNewlines name + countNewlines cmd + countNewlines args +
        countNewlines value + 1 := by
  have lnl : countNewlines "\n" = 1 := by decide
  have lsp : countNewlines " " = 0 := by decide
  unfold renderLine
  simp only [countNewlines_append, countNewlines_labelBlock, lnl, lsp]
  omega

/-- A rendered sample contains six terminating newlines plus six copies of
whatever newlines sit inside the `command` and `args` label values. -/
theorem countNewlines_renderSample (pid : Int) (cmd args : String) (cpu : ℚ)
    (mem recv trans rbytes wbytes : Nat) :
    countNewlines (renderSample pid cmd args cpu mem recv trans rbytes wbytes) =
      6 + 6 * countNewlines cmd + 6 * countNewlines args := by
  have n1 : countNewlines "process_cpu_usage" = 0 := by decide
  have n2 : countNewlines "process_memory_usage" = 0 := by decide
  have n3 : countNewlines "process_network_receive_bytes" = 0 := by decide
  have n4 : countNewlines "process_network_transmit_bytes" = 0 := by decide
  have n5 : countNewlines "process_disk_read_bytes" = 0 := by decide
  have n6 : countNewlines "process_disk_write_bytes" = 0 := by decide
  unfold renderSample
  simp only [countNewlines_append, countNewlines_renderLine,
    countNewlines_formatFixed2, countNewlines_goFormatNat,
    n1, n2, n3, n4, n5, n6]
  omega

/-- Joining strings of six newlines each yields six newlines per string. -/
theorem countNewlines_join_const (l : List String)
    (h : ∀ s ∈ l, countNewlines s = 6) :
    countNewlines (String.join l) = 6 * l.length := by
  induction l with
  | nil => rfl
  | cons a as ih =>
      rw [stringJoin_cons, countNewlines_append, h a (List.mem_cons_self a as),
        ih (fun s hs => h s (List.mem_cons_of_mem a hs))]
      rw [List.length_cons, Nat.mul_succ]
      omega

/-- C8 counterexample: a process whose command line carries an embedded
newline in an argument is sampled successfully, yet its rendered block
contains 12 newline-terminated lines, not 6 — the label value's newlines
multiply through all six rendered lines. -/
theorem rendering_six_lines_counterexample :
    collectProcessMetrics 1 ⟨.ok "c\x00a\nb",
        .ok "1 (c) R 4 5 6 7 8 9 10 11 12 13 0 0 16",
        .ok "VmRSS: 8 kB", .ok "read_bytes: 77\nwrite_bytes: 88",
        .ok "h1\nh2"⟩ =
      .ok (renderSample 1 "c" "a\nb"
        ((goParseFloatOr0 "0" + goParseFloatOr0 "0") / 100) 8192 0 0 77 88) ∧
    countNewlines (renderSample 1 "c" "a\nb"
        ((goParseFloatOr0 "0" + goParseFloatOr0 "0") / 100) 8192 0 0 77 88) =
      12 ∧
    (12 : Nat) ≠ 6 := by
  refine ⟨rfl, ?_, by decide⟩
  rw [countNewlines_renderSample]
  decide

/-- C8 amended: a successful sample renders as the join of six lines, one
per metric name in the fixed order, each carrying the `pid`, `command` and
`args` labels, CPU formatted with two decimals and the other values as
integers; when the `command` and `args` label values contain no newline
(the case for every ordinary command line) the block is exactly six
newline-terminated lines; consequently a published document whose samples
are all six-line has a newline count divisible by six, and it is empty when
no process yields a sample. -/
theorem rendering_six_lines :
    (∀ (pid : Int) (cmd args : String) (cpu : ℚ)
        (mem recv trans rbytes wbytes : Nat),
        renderSample pid cmd args cpu mem recv trans rbytes wbytes =
          String.join
            [renderLine "process_cpu_usage" pid cmd args (formatFixed2 cpu),
             renderLine "process_memory_usage" pid cmd args (goFormatNat mem),
             renderLine "process_network_receive_bytes" pid cmd args
               (goFormatNat recv),
             renderLine "process_network_transmit_bytes" pid cmd args
               (goFormatNat trans),
             renderLine "process_disk_read_bytes" pid cmd args
               (goFormatNat rbytes),
             renderLine "process_disk_write_bytes" pid cmd args
               (goFormatNat wbytes)]) ∧
    (∀ (pid : Int) (cmd args : String) (cpu : ℚ)
        (mem recv trans rbytes wbytes : Nat),
        countNewlines cmd = 0 → countNewlines args = 0 →
        countNewlines (renderSample pid cmd args cpu mem recv trans
          rbytes wbytes) = 6) ∧
    (∀ (listing : Except String (List DirEntry))
        (reader : Int → GoResult String) (doc : String),
        (∀ p s, reader p = .ok s → countNewlines s = 6) →
        collectMetrics listing reader = .ok doc →
        countNewlines doc % 6 = 0) ∧
    (∀ (listing : Except String (List DirEntry))
        (reader : Int → GoResult String) (doc : String),
        (∀ (p : Int) (s : String), reader p ≠ .ok s) →
        collectMetrics listing reader = .ok doc → doc = "") := by
  have hjoin : String.join ([] : List String) = "" := rfl
  refine ⟨?_, ?_, ?_, ?_⟩
  · intro pid cmd args cpu mem recv trans rbytes wbytes
    simp [renderSample, stringJoin_cons, hjoin, String.append_assoc,
      String.append_empty]
  · intro pid cmd args cpu mem recv trans rbytes wbytes h1 h2
    rw [countNewlines_renderSample, h1, h2]
  · intro listing reader doc hs hdoc
    cases listing with
    | error e => simp [collectMetrics, getHostPIDs] at hdoc
    | ok files =>
        simp only [collectMetrics, getHostPIDs] at hdoc
        by_cases hcr : ∃ p ∈ (files.filterMap fun f =>
            if f.isDir then goParseInt32 f.name else none), reader p = .crash
        · rw [if_pos hcr] at hdoc
          cases hdoc
        · rw [if_neg hcr] at hdoc
          simp only [GoResult.ok.injEq] at hdoc
          rw [← hdoc, countNewlines_join_const]
          · simp [Nat.mul_mod_right]
          · intro s hsmem
            obtain ⟨p, hp, hfrag⟩ := List.mem_filterMap.mp hsmem
            unfold readerFragment at hfrag
            rcases hrp : reader p with s2 | e2 <;> rw [hrp] at hfrag
            · simp only [Option.some.injEq] at hfrag
              rw [← hfrag]
              exact hs p s2 hrp
            · cases hfrag
            · cases hfrag
  · intro listing reader doc hno hdoc
    cases listing with
    | error e => simp [collectMetrics, getHostPIDs] at hdoc
    | ok files =>
        simp only [collectMetrics, getHostPIDs] at hdoc
        by_cases hcr : ∃ p ∈ (files.filterMap fun f =>
            if f.isDir then goParseInt32 f.name else none), reader p = .crash
        · rw [if_pos hcr] at hdoc
          cases hdoc
        · rw [if_neg hcr] at hdoc
          simp only [GoResult.ok.injEq] at hdoc
          have hnil : (List.filterMap (readerFragment reader)
              (files.filterMap fun f =>
                if f.isDir then goParseInt32 f.name else none)) = [] := by
            rw [List.filterMap_eq_nil_iff]
            intro p _
            unfold readerFragment
            rcases hrp : reader p with s2 | e2
            · exact absurd hrp (hno p s2)
            · rfl
            · rfl
          rw [hnil] at hdoc
          exact hdoc.symm

/-- Witness for C8 at a concrete newline-free sample. -/
theorem rendering_six_lines_witness :
    countNewlines (renderSample 1 "c" "" 0 0 0 0 0 0) = 6 :=
  rendering_six_lines.2.1 1 "c" "" 0 0 0 0 0 0 (by decide) (by decide)

end ProcExporter
